import Mathlib

/-!
# Constella spatial canvas engine — verification development

Shallow embedding of the spatial canvas screen
(`src/screens/NoteEditorScreen.tsx`, component `SpatialCanvasScreen`) of the
Constella note app, together with theorems settling the specification claims
about it.

Modelling conventions:
* JS numbers are embedded as `ℚ` (all the code's arithmetic on finite inputs
  is exact ±*/ and min/max, so rationals are faithful); the one place where a
  JS division by zero can produce `Infinity`/`NaN` — the fit-to-content scale
  solve — is embedded with an explicit extended-number type `JsNum`.
* Reanimated shared values (`translateX`, `translateY`, `scale`,
  `canvasPanEnabled`, `last*`) and React state (`noteNodes`, `notes`,
  `selectedNode`, `contextMenuState`) are gathered into one `EngineState`
  record; each gesture callback of the source becomes a function
  `EngineState → EngineState`.
* `withSpring x` animates towards the target `x`; we model the settled value,
  i.e. the assignment of the target.
* Asynchronous persistence (`databaseService.updateNotePosition`) is
  fire-and-forget in the source; we record issued calls in an append-only
  `calls` trace.
* Render-only node fields (the embedded `note` object and the per-node
  style `scale`, both never read by the canvas logic) are omitted from
  `NoteNode`.
-/

namespace Constella

/-- One placed item on the canvas (source interface `NoteNode`,
`NoteEditorScreen.tsx:1680`). -/
structure NoteNode where
  id : String
  x : ℚ
  y : ℚ
  width : ℚ
  height : ℚ
  isPinned : Bool
deriving DecidableEq

/-- The slice of a stored note the canvas reads: its id and optional canvas
position (source `Note` type; `position` is `undefined` for unplaced notes). -/
structure Note where
  id : String
  position : Option (ℚ × ℚ)
deriving DecidableEq

/-- A persistence call issued to the external store
(`databaseService.updateNotePosition`): a non-null position is a save, a
`null` position clears the stored placement. -/
inductive StoreCall where
  | savePosition (id : String) (x y : ℚ)
  | clearPosition (id : String)
deriving DecidableEq

/-- Source interface `CanvasContextMenuState` (`NoteEditorScreen.tsx:1675`):
the long-pressed node and the screen-space anchor point. -/
structure ContextMenuSt where
  node : NoteNode
  posX : ℚ
  posY : ℚ
deriving DecidableEq

/-- Source `dragStartRef.current` is a JS record `id ↦ {x,y}`; we embed it as an
association list where insertion prepends after erasing the key. -/
def dsLookup (m : List (String × ℚ × ℚ)) (k : String) : Option (ℚ × ℚ) :=
  match m with
  | [] => none
  | (k', v) :: rest => if k' = k then some v else dsLookup rest k

/-- Source `delete dragStartRef.current[k]`. -/
def dsErase (m : List (String × ℚ × ℚ)) (k : String) : List (String × ℚ × ℚ) :=
  m.filter (fun e => !(e.1 = k : Bool))

/-- Source `dragStartRef.current[k] = v` (overwrite semantics). -/
def dsInsert (m : List (String × ℚ × ℚ)) (k : String) (v : ℚ × ℚ) :
    List (String × ℚ × ℚ) :=
  (k, v) :: dsErase m k

/-- The whole mutable state of `SpatialCanvasScreen`: React state, refs and
reanimated shared values, plus the trace of issued store calls. -/
structure EngineState where
  notes : List Note
  noteNodes : List NoteNode
  selectedNode : Option String
  dragStart : List (String × ℚ × ℚ)
  contextMenu : Option ContextMenuSt
  canvasPanEnabled : Bool
  translateX : ℚ
  translateY : ℚ
  scale : ℚ
  lastTranslateX : ℚ
  lastTranslateY : ℚ
  lastScale : ℚ
  calls : List StoreCall
deriving DecidableEq

/-! ## Canvas-level pan and pinch gestures (`NoteEditorScreen.tsx:1746-1779`) -/

/-- Source `panGesture.onStart`: bails out when canvas panning is disarmed,
otherwise snapshots the translation. -/
def panGestureOnStart (s : EngineState) : EngineState :=
  if !s.canvasPanEnabled then s
  else { s with lastTranslateX := s.translateX, lastTranslateY := s.translateY }

/-- Source `panGesture.onUpdate`: bails out when disarmed, otherwise applies the
gesture translation on top of the snapshot. -/
def panGestureOnUpdate (translationX translationY : ℚ) (s : EngineState) :
    EngineState :=
  if !s.canvasPanEnabled then s
  else { s with translateX := s.lastTranslateX + translationX,
                translateY := s.lastTranslateY + translationY }

/-- Source `pinchGesture.onStart`: snapshots the scale. Note: no
`canvasPanEnabled` check. -/
def pinchGestureOnStart (s : EngineState) : EngineState :=
  { s with lastScale := s.scale }

/-- Source `pinchGesture.onUpdate`:
`scale.value = Math.max(0.1, Math.min(5, lastScale.value * event.scale))`.
Note: no `canvasPanEnabled` check. -/
def pinchGestureOnUpdate (eventScale : ℚ) (s : EngineState) : EngineState :=
  { s with scale := max (1/10) (min 5 (s.lastScale * eventScale)) }

/-- Source `pinchGesture.onEnd`: snap (via `withSpring`, modelled as its settled
target) to `0.5` below `0.5` and to `3` above `3`; otherwise untouched. -/
def pinchGestureOnEnd (s : EngineState) : EngineState :=
  if s.scale < 1/2 then { s with scale := 1/2 }
  else if s.scale > 3 then { s with scale := 3 }
  else s

/-! ## Per-node drag gesture (`NoteEditorScreen.tsx:1796-1852, 2185-2212`)

The node pan gesture is configured with `.enabled(!node.isPinned)`: it never
fires on a pinned node; theorems about drag events therefore concern
unpinned nodes. The worklet-side callbacks flip `canvasPanEnabled` and then
`runOnJS` the JS handlers, dividing the screen-space translation by the
live `scale.value`. -/

/-- Source `handleNodeDragStartJS`: captures the node's position as the drag origin
and selects the node; silently ignores unknown ids. -/
def handleNodeDragStartJS (nodeId : String) (s : EngineState) : EngineState :=
  match s.noteNodes.find? (fun n => n.id == nodeId) with
  | none => s
  | some node =>
    { s with dragStart := dsInsert s.dragStart nodeId (node.x, node.y),
             selectedNode := some nodeId }

/-- Source `notePanGesture.onBegin`: disarms canvas panning, then runs the JS drag
start handler. -/
def notePanGestureOnBegin (nodeId : String) (s : EngineState) : EngineState :=
  handleNodeDragStartJS nodeId { s with canvasPanEnabled := false }

/-- Source `handleNodeDragUpdateJS`: no-op without a captured origin; otherwise
moves the node to origin + (already scale-divided) delta. -/
def handleNodeDragUpdateJS (nodeId : String) (deltaX deltaY : ℚ)
    (s : EngineState) : EngineState :=
  match dsLookup s.dragStart nodeId with
  | none => s
  | some start =>
    { s with noteNodes := s.noteNodes.map (fun n =>
        if n.id == nodeId then
          { n with x := start.1 + deltaX, y := start.2 + deltaY } else n) }

/-- Source `notePanGesture.onUpdate`: divides the gesture translation by the current
`scale.value` and runs the JS update handler. -/
def notePanGestureOnUpdate (nodeId : String) (translationX translationY : ℚ)
    (s : EngineState) : EngineState :=
  handleNodeDragUpdateJS nodeId (translationX / s.scale) (translationY / s.scale) s

/-- Source `handleNodeDragEndJS`: no-op without a captured origin; otherwise commits
origin + delta as the node's position, mirrors it into the notes list, and
issues a save-position store call. -/
def handleNodeDragEndJS (nodeId : String) (deltaX deltaY : ℚ)
    (s : EngineState) : EngineState :=
  match dsLookup s.dragStart nodeId with
  | none => s
  | some start =>
    let newX := start.1 + deltaX
    let newY := start.2 + deltaY
    { s with
      dragStart := dsInsert s.dragStart nodeId (newX, newY),
      noteNodes := s.noteNodes.map (fun n =>
        if n.id == nodeId then { n with x := newX, y := newY } else n),
      notes := s.notes.map (fun nt =>
        if nt.id == nodeId then { nt with position := some (newX, newY) } else nt),
      calls := s.calls ++ [StoreCall.savePosition nodeId newX newY] }

/-- Source `notePanGesture.onEnd`: re-arms canvas panning, divides the total
translation by the current `scale.value` and runs the JS end handler. -/
def notePanGestureOnEnd (nodeId : String) (translationX translationY : ℚ)
    (s : EngineState) : EngineState :=
  handleNodeDragEndJS nodeId (translationX / s.scale) (translationY / s.scale)
    { s with canvasPanEnabled := true }

/-- Source `handleNodeDragFinalizeJS`: drops the captured origin. -/
def handleNodeDragFinalizeJS (nodeId : String) (s : EngineState) : EngineState :=
  { s with dragStart := dsErase s.dragStart nodeId }

/-- Source `notePanGesture.onFinalize`: re-arms canvas panning and drops the origin. -/
def notePanGestureOnFinalize (nodeId : String) (s : EngineState) : EngineState :=
  handleNodeDragFinalizeJS nodeId { s with canvasPanEnabled := true }

/-! ## Context menu open/close (`NoteEditorScreen.tsx:1860-1884, 2214-2221`) -/

/-- Source `openNodeContextMenu` (run from the long-press gesture's `onStart`):
ignores unknown ids; otherwise disarms canvas panning, selects the node and
opens the menu at the touch point. -/
def openNodeContextMenu (nodeId : String) (x y : ℚ) (s : EngineState) :
    EngineState :=
  match s.noteNodes.find? (fun n => n.id == nodeId) with
  | none => s
  | some node =>
    { s with canvasPanEnabled := false,
             selectedNode := some nodeId,
             contextMenu := some ⟨node, x, y⟩ }

/-- Source `closeContextMenu`: dismisses the menu and re-arms canvas panning. -/
def closeContextMenu (s : EngineState) : EngineState :=
  { s with contextMenu := none, canvasPanEnabled := true }

/-! ## Context menu actions (`NoteEditorScreen.tsx:1886-1957`) -/

/-- The four menu actions of `CANVAS_CONTEXT_MENU_ACTIONS`. -/
inductive CanvasContextMenuActionId where
  | layerUp
  | layerDown
  | pin
  | remove
deriving DecidableEq

/-- The `layer-up` branch: `findIndex`; unchanged when absent or already
last; otherwise `splice` the node out and `push` it to the end. -/
def layerUpNodes (nodeId : String) (l : List NoteNode) : List NoteNode :=
  match l.findIdx? (fun n => n.id == nodeId) with
  | none => l
  | some i =>
    if i = l.length - 1 then l
    else
      match l.get? i with
      | none => l
      | some target => l.eraseIdx i ++ [target]

/-- The `layer-down` branch: `findIndex`; unchanged when `index <= 0`
(absent or already first); otherwise `splice` the node out and `unshift`
it to the front. -/
def layerDownNodes (nodeId : String) (l : List NoteNode) : List NoteNode :=
  match l.findIdx? (fun n => n.id == nodeId) with
  | none => l
  | some i =>
    if i = 0 then l
    else
      match l.get? i with
      | none => l
      | some target => target :: l.eraseIdx i

/-- Source `handleCanvasMenuAction`: bails out with no menu; otherwise closes the
menu (re-arming canvas panning) and applies the chosen action. `remove`
filters the node out, unplaces the note, clears a matching selection, drops
any captured drag origin, and issues a clear-position store call. -/
def handleCanvasMenuAction (actionId : CanvasContextMenuActionId)
    (s : EngineState) : EngineState :=
  match s.contextMenu with
  | none => s
  | some menu =>
    let node := menu.node
    let s1 := closeContextMenu s
    match actionId with
    | .layerUp => { s1 with noteNodes := layerUpNodes node.id s1.noteNodes }
    | .layerDown => { s1 with noteNodes := layerDownNodes node.id s1.noteNodes }
    | .pin =>
      { s1 with noteNodes := s1.noteNodes.map (fun n =>
          if n.id == node.id then { n with isPinned := !n.isPinned } else n) }
    | .remove =>
      { s1 with
        noteNodes := s1.noteNodes.filter (fun n => !(n.id == node.id)),
        notes := s1.notes.map (fun nt =>
          if nt.id == node.id then { nt with position := none } else nt),
        selectedNode :=
          if s1.selectedNode = some node.id then none else s1.selectedNode,
        dragStart := dsErase s1.dragStart node.id,
        calls := s1.calls ++ [StoreCall.clearPosition node.id] }

/-! ## Loading placed notes (`NoteEditorScreen.tsx:1722-1744`) -/

/-- Source `NOTE_NODE_WIDTH` (`NoteEditorScreen.tsx:1656`). -/
def NOTE_NODE_WIDTH : ℚ := 200

/-- Source `NOTE_NODE_HEIGHT` (`NoteEditorScreen.tsx:1657`). -/
def NOTE_NODE_HEIGHT : ℚ := 150

/-- The node list built by `loadNotes`: filter the notes that carry a
position, then map each to a fresh node of the fixed size with
`isPinned: false` (written as the equivalent single `filterMap`). -/
def loadNotesNodes (allNotes : List Note) : List NoteNode :=
  allNotes.filterMap (fun nt => nt.position.map (fun p =>
    { id := nt.id, x := p.1, y := p.2,
      width := NOTE_NODE_WIDTH, height := NOTE_NODE_HEIGHT,
      isPinned := false }))

/-! ## Insertion point (`NoteEditorScreen.tsx:1959-1968`)

`screenWidth`/`screenHeight` are module-level constants read from the device
(`Dimensions.get('window')`); they are parameters of the embedding. -/

/-- Source `computeInsertionPoint`: clamps the scale to at least `0.1` and returns
`(screenW/(2·safeScale) - translateX - NOTE_NODE_WIDTH/2, …)`. -/
def computeInsertionPoint (screenW screenH : ℚ) (s : EngineState) : ℚ × ℚ :=
  let safeScale := max s.scale (1/10)
  (screenW / (2 * safeScale) - s.translateX - NOTE_NODE_WIDTH / 2,
   screenH / (2 * safeScale) - s.translateY - NOTE_NODE_HEIGHT / 2)

/-- Modelled from the spec: the canvas-space point at the visual center of
the viewport per the claimed inverse transform
`(screenPoint - translate) / scale` applied to the viewport center. -/
def insertionPointSpec (screenW screenH translateX translateY scale : ℚ) :
    ℚ × ℚ :=
  ((screenW / 2 - translateX) / scale, (screenH / 2 - translateY) / scale)

/-! ## Context-menu placement (`NoteEditorScreen.tsx:1988-2008`) -/

/-- Clamp `v` into `[lo, hi]` (for `hi ≥ lo`). -/
def clampQ (v lo hi : ℚ) : ℚ := min (max v lo) hi

/-- The canvas screen's `menuPosition` (non-null branch): prefer
`anchor.y + 12` / centered horizontally, then clamp both coordinates with
`Math.min(Math.max(preferred, margin), Math.max(margin, max*))`. `menuW` and
`menuH` are the measured layout size (after the `|| 220` / `|| 200`
fallbacks). Returns `(top, left)`. -/
def menuPositionCanvas (anchorX anchorY menuW menuH screenW screenH : ℚ) :
    ℚ × ℚ :=
  let margin : ℚ := 16
  let preferredTop := anchorY + 12
  let preferredLeft := anchorX - menuW / 2
  let maxTop := screenH - margin - menuH
  let maxLeft := screenW - margin - menuW
  (min (max preferredTop margin) (max margin maxTop),
   min (max preferredLeft margin) (max margin maxLeft))

/-- Modelled from the spec: the claimed placement, which prefers
`anchor.y + 12`, flips above the anchor (`anchor.y - menuH - 12`) when the
preferred top would pass `screenH - margin`, and clamps whichever candidate
resulted into `[margin, screenH - margin - menuH]`; horizontally centered on
the anchor and clamped into `[margin, screenW - margin - menuW]`. -/
def menuPositionSpec (anchorX anchorY menuW menuH screenW screenH margin :
    ℚ) : ℚ × ℚ :=
  let preferredTop := anchorY + 12
  let maxTop := screenH - margin - menuH
  let topCandidate :=
    if preferredTop > maxTop then anchorY - menuH - 12 else preferredTop
  (clampQ topCandidate margin maxTop,
   clampQ (anchorX - menuW / 2) margin (screenW - margin - menuW))

/-- The flipping `menuPosition` of the notes-list screen
(`src/unnamed/part_004:210-242`), for comparison: prefers below the anchor,
flips above when past `maximumTop`, falls back to
`Math.max(margin, maximumTop)` when the flipped top is above `margin`;
horizontally centered with two-sided clamping. Returns `(top, left)`. -/
def menuPositionList (anchorX anchorY menuW menuH screenW screenH : ℚ) :
    ℚ × ℚ :=
  let margin : ℚ := 16
  let preferredTop := anchorY + 12
  let maximumTop := screenH - margin - menuH
  let top :=
    if preferredTop > maximumTop then
      let flipped := anchorY - menuH - 12
      if flipped < margin then max margin maximumTop else flipped
    else if preferredTop < margin then margin else preferredTop
  let left0 := anchorX - menuW / 2
  let left :=
    if left0 < margin then margin
    else if left0 > screenW - menuW - margin then screenW - menuW - margin
    else left0
  (top, left)

/-! ## Fit-to-content (`NoteEditorScreen.tsx:2100-2134`)

`zoomToFitAll` folds the bounding box from `Infinity`/`-Infinity` seeds and
divides by the box extent; to stay faithful to JS numbers we embed the
values this computation manipulates as rationals extended with the IEEE
specials. -/

/-- A JS number: a finite rational, an infinity, or `NaN`. -/
inductive JsNum where
  | nan
  | posInf
  | negInf
  | num (q : ℚ)
deriving DecidableEq

/-- Source `Math.min(a, q)` with a finite second argument. -/
def jsMinQ (a : JsNum) (q : ℚ) : JsNum :=
  match a with
  | .nan => .nan
  | .posInf => .num q
  | .negInf => .negInf
  | .num b => .num (min b q)

/-- Source `Math.max(a, q)` with a finite second argument. -/
def jsMaxQ (a : JsNum) (q : ℚ) : JsNum :=
  match a with
  | .nan => .nan
  | .posInf => .posInf
  | .negInf => .num q
  | .num b => .num (max b q)

/-- Source `Math.min` on two JS numbers. -/
def jsMin (a b : JsNum) : JsNum :=
  match a, b with
  | .nan, _ => .nan
  | _, .nan => .nan
  | .negInf, _ => .negInf
  | _, .negInf => .negInf
  | .posInf, b => b
  | a, .posInf => a
  | .num x, .num y => .num (min x y)

/-- JS subtraction. -/
def jsSub (a b : JsNum) : JsNum :=
  match a, b with
  | .nan, _ => .nan
  | _, .nan => .nan
  | .posInf, .posInf => .nan
  | .negInf, .negInf => .nan
  | .posInf, _ => .posInf
  | .negInf, _ => .negInf
  | .num _, .posInf => .negInf
  | .num _, .negInf => .posInf
  | .num x, .num y => .num (x - y)

/-- JS addition. -/
def jsAdd (a b : JsNum) : JsNum :=
  match a, b with
  | .nan, _ => .nan
  | _, .nan => .nan
  | .posInf, .negInf => .nan
  | .negInf, .posInf => .nan
  | .posInf, _ => .posInf
  | _, .posInf => .posInf
  | .negInf, _ => .negInf
  | _, .negInf => .negInf
  | .num x, .num y => .num (x + y)

/-- JS negation. -/
def jsNeg (a : JsNum) : JsNum :=
  match a with
  | .nan => .nan
  | .posInf => .negInf
  | .negInf => .posInf
  | .num x => .num (-x)

/-- JS multiplication. -/
def jsMul (a b : JsNum) : JsNum :=
  match a, b with
  | .nan, _ => .nan
  | _, .nan => .nan
  | .num x, .num y => .num (x * y)
  | .num x, .posInf => if x > 0 then .posInf else if x < 0 then .negInf else .nan
  | .num x, .negInf => if x > 0 then .negInf else if x < 0 then .posInf else .nan
  | .posInf, .num y => if y > 0 then .posInf else if y < 0 then .negInf else .nan
  | .negInf, .num y => if y > 0 then .negInf else if y < 0 then .posInf else .nan
  | .posInf, .posInf => .posInf
  | .posInf, .negInf => .negInf
  | .negInf, .posInf => .negInf
  | .negInf, .negInf => .posInf

/-- JS division (signed-zero subtleties do not arise: the numerators the
code builds are exact rationals and the divisor is a bounding-box extent). -/
def jsDiv (a b : JsNum) : JsNum :=
  match a, b with
  | .nan, _ => .nan
  | _, .nan => .nan
  | .num x, .num y =>
    if y = 0 then (if x = 0 then .nan else if x > 0 then .posInf else .negInf)
    else .num (x / y)
  | .num _, .posInf => .num 0
  | .num _, .negInf => .num 0
  | .posInf, .num _ => .posInf
  | .negInf, .num _ => .negInf
  | _, _ => .nan

/-- The accumulator of the `reduce` in `zoomToFitAll`. -/
structure FitBounds where
  minX : JsNum
  maxX : JsNum
  minY : JsNum
  maxY : JsNum
deriving DecidableEq

/-- The bounding-box `reduce` of `zoomToFitAll`, seeded with
`{minX: Infinity, maxX: -Infinity, minY: Infinity, maxY: -Infinity}`. -/
def zoomBounds (nodes : List NoteNode) : FitBounds :=
  nodes.foldl (fun acc node =>
    { minX := jsMinQ acc.minX node.x,
      maxX := jsMaxQ acc.maxX (node.x + node.width),
      minY := jsMinQ acc.minY node.y,
      maxY := jsMaxQ acc.maxY (node.y + node.height) })
    { minX := .posInf, maxX := .negInf, minY := .posInf, maxY := .negInf }

/-- The transform targets `zoomToFitAll` springs to. -/
structure FitTarget where
  scale : JsNum
  translateX : JsNum
  translateY : JsNum
deriving DecidableEq

/-- Source `zoomToFitAll`: early-returns on an empty node list (no state change,
modelled as `none`); otherwise computes the bounding box, the fitting scale
`min(min(scaleX, scaleY), 1)` with `padding = 100`, and the recentering
translation, and springs to them. -/
def zoomToFitAll (screenW screenH : ℚ) (nodes : List NoteNode) :
    Option FitTarget :=
  if nodes.isEmpty then none
  else
    let b := zoomBounds nodes
    let contentWidth := jsSub b.maxX b.minX
    let contentHeight := jsSub b.maxY b.minY
    let centerX := jsDiv (jsAdd b.minX b.maxX) (.num 2)
    let centerY := jsDiv (jsAdd b.minY b.maxY) (.num 2)
    let padding : ℚ := 100
    let scaleX := jsDiv (.num (screenW - padding * 2)) contentWidth
    let scaleY := jsDiv (.num (screenH - padding * 2)) contentHeight
    let newScale := jsMin (jsMin scaleX scaleY) (.num 1)
    some { scale := newScale,
           translateX := jsAdd (jsMul (jsNeg centerX) newScale) (.num (screenW / 2)),
           translateY := jsAdd (jsMul (jsNeg centerY) newScale) (.num (screenH / 2)) }

/-- The rational-valued bounding box of a nonempty node list
`first :: rest`, as `(minX, maxX, minY, maxY)`: the axis-aligned hull of all
`position`–`position+size` rectangles. -/
def qBounds (first : NoteNode) (rest : List NoteNode) : ℚ × ℚ × ℚ × ℚ :=
  rest.foldl (fun acc n =>
    (min acc.1 n.x, max acc.2.1 (n.x + n.width),
     min acc.2.2.1 n.y, max acc.2.2.2 (n.y + n.height)))
    (first.x, first.x + first.width, first.y, first.y + first.height)

/-! ## Concrete demonstration states -/

/-- A canvas session right after mount: no notes, identity transform. -/
def emptyCanvasState : EngineState :=
  { notes := [], noteNodes := [], selectedNode := none, dragStart := [],
    contextMenu := none, canvasPanEnabled := true,
    translateX := 0, translateY := 0, scale := 1,
    lastTranslateX := 0, lastTranslateY := 0, lastScale := 1, calls := [] }

/-- An empty session whose viewport transform is `(tx, ty, sc)`. -/
def mkViewState (tx ty sc : ℚ) : EngineState :=
  { emptyCanvasState with
    translateX := tx, translateY := ty, scale := sc, lastScale := sc }

/-- Demo node `A` at canvas position `(100, 100)`. -/
def nodeA : NoteNode :=
  { id := "A", x := 100, y := 100,
    width := NOTE_NODE_WIDTH, height := NOTE_NODE_HEIGHT, isPinned := false }

/-- Demo node `B` at canvas position `(400, 300)`. -/
def nodeB : NoteNode :=
  { id := "B", x := 400, y := 300,
    width := NOTE_NODE_WIDTH, height := NOTE_NODE_HEIGHT, isPinned := false }

/-- A session holding the placed note `A` at the identity transform. -/
def dragDemoState : EngineState :=
  { emptyCanvasState with
    notes := [{ id := "A", position := some (100, 100) }],
    noteNodes := [nodeA] }

/-- A session with nodes `A`, `B`, a captured drag origin for `A`, and the
context menu open on `A`. -/
def menuDemoState : EngineState :=
  { emptyCanvasState with
    notes := [{ id := "A", position := some (100, 100) },
              { id := "B", position := some (400, 300) }],
    noteNodes := [nodeA, nodeB],
    selectedNode := some "A",
    dragStart := [("A", (100, 100))],
    contextMenu := some { node := nodeA, posX := 120, posY := 130 },
    canvasPanEnabled := false }

/-- A single node spanning the canvas rectangle `(0,0)`–`(2000,1500)`. -/
def fitDemoNode : NoteNode :=
  { id := "F", x := 0, y := 0, width := 2000, height := 1500, isPinned := false }

/-- A hypothetical node of zero size (nodes the program builds always have
size `200 × 150`; this probes the degenerate-box branch). -/
def degenerateNode : NoteNode :=
  { id := "D", x := 0, y := 0, width := 0, height := 0, isPinned := false }

/-! ## Claim C7 — zoom clamping -/

/-- Claim C7. During a pinch, every update leaves the scale in `[0.1, 5]`;
when the gesture ends, a scale below `0.5` settles to exactly `0.5`, a scale
above `3` settles to exactly `3`, and an in-range scale is left unmodified —
so the settled scale is always in `[0.5, 3]`. -/
theorem pinch_scale_clamped :
    (∀ (eventScale : ℚ) (s : EngineState),
        1/10 ≤ (pinchGestureOnUpdate eventScale s).scale ∧
        (pinchGestureOnUpdate eventScale s).scale ≤ 5) ∧
    (∀ s : EngineState,
        1/2 ≤ (pinchGestureOnEnd s).scale ∧ (pinchGestureOnEnd s).scale ≤ 3) ∧
    (∀ s : EngineState, s.scale < 1/2 → (pinchGestureOnEnd s).scale = 1/2) ∧
    (∀ s : EngineState, 3 < s.scale → (pinchGestureOnEnd s).scale = 3) ∧
    (∀ s : EngineState, 1/2 ≤ s.scale → s.scale ≤ 3 → pinchGestureOnEnd s = s) := by
  have hscale : ∀ s : EngineState, (pinchGestureOnEnd s).scale =
      if s.scale < 1/2 then 1/2 else if s.scale > 3 then 3 else s.scale := by
    intro s
    unfold pinchGestureOnEnd
    split_ifs <;> rfl
  refine ⟨fun e s => ⟨le_max_left _ _, max_le (by norm_num) (min_le_left _ _)⟩,
          fun s => ?_, fun s h => ?_, fun s h => ?_, fun s h1 h2 => ?_⟩
  · rw [hscale]
    split_ifs with h1 h2
    · exact ⟨le_refl _, by norm_num⟩
    · exact ⟨by norm_num, le_refl _⟩
    · exact ⟨le_of_not_lt h1, le_of_not_lt h2⟩
  · rw [hscale, if_pos h]
  · rw [hscale, if_neg (by linarith), if_pos h]
  · unfold pinchGestureOnEnd
    rw [if_neg (by linarith), if_neg (by linarith)]

/-- Witness for C7: the scale `0.3` state settles to `0.5` (scenario 5 of
the spec), and the in-range scale `1` is left unmodified. -/
theorem pinch_scale_clamped_witness :
    (pinchGestureOnEnd (mkViewState 0 0 (3/10))).scale = 1/2 ∧
    pinchGestureOnEnd (mkViewState 0 0 1) = mkViewState 0 0 1 :=
  ⟨pinch_scale_clamped.2.2.1 (mkViewState 0 0 (3/10)) (by norm_num [mkViewState, emptyCanvasState]),
   pinch_scale_clamped.2.2.2.2 (mkViewState 0 0 1)
     (by norm_num [mkViewState, emptyCanvasState])
     (by norm_num [mkViewState, emptyCanvasState])⟩

/-! ## Claim C3 — insertion point -/

/-- Counterexample to C3. At translate `(100, 100)`, scale `2`, viewport
`800 × 600`, `computeInsertionPoint` returns `(0, -25)`, while the inverse
transform `(screenCenter - translate) / scale` of the claim gives
`(150, 100)`: the two disagree. -/
theorem computeInsertionPoint_cex :
    computeInsertionPoint 800 600 (mkViewState 100 100 2) = (0, -25) ∧
    insertionPointSpec 800 600 100 100 2 = (150, 100) ∧
    computeInsertionPoint 800 600 (mkViewState 100 100 2) ≠
      insertionPointSpec 800 600 100 100 2 := by
  refine ⟨?_, ?_, ?_⟩ <;>
    norm_num [computeInsertionPoint, insertionPointSpec, mkViewState,
      emptyCanvasState, NOTE_NODE_WIDTH, NOTE_NODE_HEIGHT, Prod.ext_iff]

/-- Amended C3. `computeInsertionPoint` returns the point `p` whose
node-centered counterpart `p + (NOTE_NODE_WIDTH/2, NOTE_NODE_HEIGHT/2)`
lands on the viewport center under the scale-after-translate mapping
`q ↦ (q + translate) · max(scale, 0.1)` — i.e. it divides only the screen
center by the clamped scale instead of applying the claimed inverse
`(screenCenter - translate) / scale`. -/
theorem computeInsertionPoint_centers_node (screenW screenH : ℚ)
    (s : EngineState) :
    ((computeInsertionPoint screenW screenH s).1 + NOTE_NODE_WIDTH / 2 +
        s.translateX) * max s.scale (1/10) = screenW / 2 ∧
    ((computeInsertionPoint screenW screenH s).2 + NOTE_NODE_HEIGHT / 2 +
        s.translateY) * max s.scale (1/10) = screenH / 2 := by
  have hpos : (0:ℚ) < max s.scale (1/10) :=
    lt_of_lt_of_le (by norm_num) (le_max_right _ _)
  unfold computeInsertionPoint
  constructor <;> · field_simp
                    ring

/-! ## Claim C4 — context-menu placement -/

/-- Counterexample to C4. Anchor `(400, 488)`, menu `200 × 200`, viewport
`800 × 600`, margin `16`: the claimed flip-above placement would put the top
at `488 - 200 - 12 = 276`, but the canvas screen's `menuPosition` never
flips — it clamps the preferred top `500` down to `384`. -/
theorem menuPositionCanvas_cex :
    menuPositionCanvas 400 488 200 200 800 600 = (384, 300) ∧
    menuPositionSpec 400 488 200 200 800 600 16 = (276, 300) ∧
    menuPositionCanvas 400 488 200 200 800 600 ≠
      menuPositionSpec 400 488 200 200 800 600 16 ∧
    menuPositionList 400 488 200 200 800 600 = (276, 300) := by
  refine ⟨?_, ?_, ?_, ?_⟩ <;>
    norm_num [menuPositionCanvas, menuPositionSpec, menuPositionList, clampQ,
      min_def, max_def, Prod.ext_iff]

/-- Amended C4. Whenever the menu fits in the viewport
(`margin ≤ viewport - margin - menuSize` on both axes), the canvas screen's
`menuPosition` places the top at the preferred `anchor.y + 12` clamped into
`[margin, screenH - margin - menuH]` — with no flip above the anchor: when
the preferred top overflows, the top is pinned to the bottom bound — and the
left at the anchor-centered `anchor.x - menuW/2` clamped into
`[margin, screenW - margin - menuW]`. -/
theorem menuPositionCanvas_clamps (anchorX anchorY menuW menuH screenW screenH : ℚ)
    (hTop : 16 ≤ screenH - 16 - menuH) (hLeft : 16 ≤ screenW - 16 - menuW) :
    menuPositionCanvas anchorX anchorY menuW menuH screenW screenH =
      (clampQ (anchorY + 12) 16 (screenH - 16 - menuH),
       clampQ (anchorX - menuW / 2) 16 (screenW - 16 - menuW)) ∧
    16 ≤ (menuPositionCanvas anchorX anchorY menuW menuH screenW screenH).1 ∧
    (menuPositionCanvas anchorX anchorY menuW menuH screenW screenH).1 ≤
      screenH - 16 - menuH ∧
    16 ≤ (menuPositionCanvas anchorX anchorY menuW menuH screenW screenH).2 ∧
    (menuPositionCanvas anchorX anchorY menuW menuH screenW screenH).2 ≤
      screenW - 16 - menuW ∧
    (screenH - 16 - menuH < anchorY + 12 →
      (menuPositionCanvas anchorX anchorY menuW menuH screenW screenH).1 =
        screenH - 16 - menuH) := by
  have eTop : max (16:ℚ) (screenH - 16 - menuH) = screenH - 16 - menuH :=
    max_eq_right hTop
  have eLeft : max (16:ℚ) (screenW - 16 - menuW) = screenW - 16 - menuW :=
    max_eq_right hLeft
  have hmain : menuPositionCanvas anchorX anchorY menuW menuH screenW screenH =
      (clampQ (anchorY + 12) 16 (screenH - 16 - menuH),
       clampQ (anchorX - menuW / 2) 16 (screenW - 16 - menuW)) := by
    simp only [menuPositionCanvas, clampQ]
    rw [eTop, eLeft]
  refine ⟨hmain, ?_, ?_, ?_, ?_, ?_⟩ <;> rw [hmain] <;> simp only [clampQ]
  · exact le_min (le_max_right _ _) hTop
  · exact min_le_right _ _
  · exact le_min (le_max_right _ _) hLeft
  · exact min_le_right _ _
  · intro hover
    have hpt : max (anchorY + 12) 16 = anchorY + 12 :=
      max_eq_left (by linarith)
    rw [hpt]
    exact min_eq_right (by linarith)

/-- Witness for C4 amended: anchor `(400, 488)` in the `800 × 600` viewport
with a `200 × 200` menu is placed at top `384`, left `300`. -/
theorem menuPositionCanvas_clamps_witness :
    menuPositionCanvas 400 488 200 200 800 600 =
      (clampQ (488 + 12) 16 (600 - 16 - 200), clampQ (400 - 200 / 2) 16 (800 - 16 - 200)) :=
  (menuPositionCanvas_clamps 400 488 200 200 800 600 (by norm_num) (by norm_num)).1

/-! ## Claim C1 — suppression of canvas gestures during drag / menu -/

/-- Counterexample to C1. Beginning a drag on node `A` disarms canvas
panning and captures a drag origin (a drag session is active) — yet a pinch
update still changes the viewport scale from `1` to `2`: canvas-level pinch
input is NOT suppressed while a drag is active. -/
theorem pinch_during_drag_cex :
    (notePanGestureOnBegin "A" dragDemoState).canvasPanEnabled = false ∧
    dsLookup (notePanGestureOnBegin "A" dragDemoState).dragStart "A" =
      some (100, 100) ∧
    (notePanGestureOnBegin "A" dragDemoState).scale = 1 ∧
    (pinchGestureOnUpdate 2 (notePanGestureOnBegin "A" dragDemoState)).scale = 2 := by
  refine ⟨?_, ?_, ?_, ?_⟩ <;>
    norm_num [notePanGestureOnBegin, handleNodeDragStartJS, pinchGestureOnUpdate,
      dragDemoState, emptyCanvasState, nodeA, dsInsert, dsErase, dsLookup,
      List.find?, min_def, max_def]

/-- Amended C1. While `canvasPanEnabled` is false (as it is during a
drag session and while the context menu is open), canvas-level *pan* input
produces no state change at all; beginning a node drag or opening the menu
on an existing node disarms canvas panning, and it is re-armed exactly on
drag end/finalize and on menu close. (Pinch input is not gated — see the
counterexample.) -/
theorem canvas_pan_gating (s : EngineState) (hs : s.canvasPanEnabled = false) :
    panGestureOnStart s = s ∧
    (∀ translationX translationY : ℚ,
        panGestureOnUpdate translationX translationY s = s) ∧
    (∀ (s' : EngineState) (nodeId : String),
        (notePanGestureOnBegin nodeId s').canvasPanEnabled = false) ∧
    (∀ (s' : EngineState) (nodeId : String) (x y : ℚ) (node : NoteNode),
        s'.noteNodes.find? (fun n => n.id == nodeId) = some node →
        (openNodeContextMenu nodeId x y s').canvasPanEnabled = false) ∧
    (∀ (s' : EngineState) (nodeId : String) (tX tY : ℚ),
        (notePanGestureOnEnd nodeId tX tY s').canvasPanEnabled = true) ∧
    (∀ (s' : EngineState) (nodeId : String),
        (notePanGestureOnFinalize nodeId s').canvasPanEnabled = true) ∧
    (∀ s' : EngineState, (closeContextMenu s').canvasPanEnabled = true) := by
  refine ⟨?_, fun tX tY => ?_, fun s' nodeId => ?_, fun s' nodeId x y node hf => ?_,
          fun s' nodeId tX tY => ?_, fun s' nodeId => ?_, fun s' => ?_⟩
  · simp [panGestureOnStart, hs]
  · simp [panGestureOnUpdate, hs]
  · unfold notePanGestureOnBegin handleNodeDragStartJS
    cases hfind : ({ s' with canvasPanEnabled := false } :
        EngineState).noteNodes.find? (fun n => n.id == nodeId) <;> simp [hfind]
  · unfold openNodeContextMenu
    rw [hf]
  · unfold notePanGestureOnEnd handleNodeDragEndJS
    cases hl : dsLookup ({ s' with canvasPanEnabled := true } :
        EngineState).dragStart nodeId <;> simp [hl]
  · rfl
  · rfl

/-- Witness for C1 amended: in the state where the menu is open on `A`
(canvas panning disarmed), a pan start and a pan update of `(40, 9)` leave
the state untouched. -/
theorem canvas_pan_gating_witness :
    menuDemoState.canvasPanEnabled = false ∧
    panGestureOnStart menuDemoState = menuDemoState ∧
    panGestureOnUpdate 40 9 menuDemoState = menuDemoState :=
  ⟨rfl, (canvas_pan_gating menuDemoState rfl).1,
   (canvas_pan_gating menuDemoState rfl).2.1 40 9⟩

/-! ## Claim C2 — drag determinism -/

theorem dsLookup_dsInsert (m : List (String × ℚ × ℚ)) (k : String) (v : ℚ × ℚ) :
    dsLookup (dsInsert m k v) k = some v := by
  simp [dsInsert, dsLookup]

theorem dsLookup_dsErase (m : List (String × ℚ × ℚ)) (k : String) :
    dsLookup (dsErase m k) k = none := by
  induction m with
  | nil => rfl
  | cons e rest ih =>
    by_cases h : e.1 = k
    · simpa [dsErase, h] using ih
    · simpa [dsErase, dsLookup, h] using ih

/-- Claim C2. Beginning a drag on a node captures its position as the origin;
drag updates leave the captured origin untouched; and a drag end with total
screen-space translation `(tX, tY)` at current scale `s.scale ≠ 0` commits
position `(x0 + tX/scale, y0 + tY/scale)` for the dragged node and issues
exactly one save-position call with that same position. -/
theorem node_drag_commit (s : EngineState) (nodeId : String) (x0 y0 tX tY : ℚ)
    (hStart : dsLookup s.dragStart nodeId = some (x0, y0))
    (hScale : s.scale ≠ 0) :
    (∀ node : NoteNode,
        s.noteNodes.find? (fun n => n.id == nodeId) = some node →
        dsLookup (notePanGestureOnBegin nodeId s).dragStart nodeId =
          some (node.x, node.y)) ∧
    (∀ dX dY : ℚ, (notePanGestureOnUpdate nodeId dX dY s).dragStart = s.dragStart) ∧
    (∀ n ∈ (notePanGestureOnEnd nodeId tX tY s).noteNodes,
        n.id = nodeId → n.x = x0 + tX / s.scale ∧ n.y = y0 + tY / s.scale) ∧
    (notePanGestureOnEnd nodeId tX tY s).calls =
      s.calls ++ [StoreCall.savePosition nodeId (x0 + tX / s.scale) (y0 + tY / s.scale)] := by
  have hEnd : notePanGestureOnEnd nodeId tX tY s =
      { s with
        canvasPanEnabled := true,
        dragStart := dsInsert s.dragStart nodeId
          (x0 + tX / s.scale, y0 + tY / s.scale),
        noteNodes := s.noteNodes.map (fun n =>
          if n.id == nodeId then
            { n with x := x0 + tX / s.scale, y := y0 + tY / s.scale } else n),
        notes := s.notes.map (fun nt =>
          if nt.id == nodeId then
            { nt with position := some (x0 + tX / s.scale, y0 + tY / s.scale) }
          else nt),
        calls := s.calls ++ [StoreCall.savePosition nodeId
          (x0 + tX / s.scale) (y0 + tY / s.scale)] } := by
    unfold notePanGestureOnEnd handleNodeDragEndJS
    simp only [hStart]
  refine ⟨fun node hfind => ?_, fun dX dY => ?_, fun n hn hid => ?_, ?_⟩
  · unfold notePanGestureOnBegin handleNodeDragStartJS
    simp only [hfind]
    exact dsLookup_dsInsert _ _ _
  · unfold notePanGestureOnUpdate handleNodeDragUpdateJS
    simp only [hStart]
  · rw [hEnd] at hn
    simp only [List.mem_map] at hn
    obtain ⟨m, _, hm⟩ := hn
    by_cases hb : m.id = nodeId
    · subst hm
      simp [hb]
    · rw [if_neg (by simpa using hb)] at hm
      subst hm
      exact absurd hid hb
  · rw [hEnd]

/-- Witness for C2: scenario 1 of the spec — node `A` at `(100, 100)`,
scale `1`, drag delta `(50, -20)`: the drag that began on `A` commits
position `(150, 80)` and saves it. -/
theorem node_drag_commit_witness :
    dsLookup (notePanGestureOnBegin "A" dragDemoState).dragStart "A" =
      some (100, 100) ∧
    (∀ n ∈ (notePanGestureOnEnd "A" 50 (-20)
        (notePanGestureOnBegin "A" dragDemoState)).noteNodes,
        n.id = "A" → n.x = 100 + 50 / (notePanGestureOnBegin "A" dragDemoState).scale ∧
          n.y = 100 + (-20) / (notePanGestureOnBegin "A" dragDemoState).scale) ∧
    (notePanGestureOnEnd "A" 50 (-20)
        (notePanGestureOnBegin "A" dragDemoState)).calls =
      (notePanGestureOnBegin "A" dragDemoState).calls ++
        [StoreCall.savePosition "A"
          (100 + 50 / (notePanGestureOnBegin "A" dragDemoState).scale)
          (100 + (-20) / (notePanGestureOnBegin "A" dragDemoState).scale)] := by
  have hStart : dsLookup (notePanGestureOnBegin "A" dragDemoState).dragStart "A" =
      some (100, 100) := by
    norm_num [notePanGestureOnBegin, handleNodeDragStartJS, dragDemoState,
      emptyCanvasState, nodeA, dsInsert, dsErase, dsLookup, List.find?]
  have hScale : (notePanGestureOnBegin "A" dragDemoState).scale ≠ 0 := by
    norm_num [notePanGestureOnBegin, handleNodeDragStartJS, dragDemoState,
      emptyCanvasState, nodeA, List.find?]
  have h := node_drag_commit (notePanGestureOnBegin "A" dragDemoState) "A"
    100 100 50 (-20) hStart hScale
  exact ⟨hStart, h.2.2.1, h.2.2.2⟩

/-! ## Claim C8 — z-order operations -/

/-- Decomposition of `findIndex` on a duplicate-free node list: the found
index holds the target node, and erasing that single index is the same as
filtering the target's id out. -/
theorem findIdx_erase_decomp (l : List NoteNode) (node : NoteNode) (i : ℕ)
    (hmem : node ∈ l) (hnd : (l.map NoteNode.id).Nodup)
    (hfind : l.findIdx? (fun n => n.id == node.id) = some i) :
    l.get? i = some node ∧
    l.eraseIdx i = l.filter (fun n => !(n.id == node.id)) := by
  induction l generalizing i with
  | nil => simp [List.findIdx?] at hfind
  | cons a rest ih =>
    rw [List.findIdx?_cons] at hfind
    have hnd' : a.id ∉ rest.map NoteNode.id ∧ (rest.map NoteNode.id).Nodup := by
      simpa [List.nodup_cons] using hnd
    by_cases ha : (a.id == node.id) = true
    · rw [if_pos ha] at hfind
      obtain rfl : (0 : ℕ) = i := by cases hfind; rfl
      have hanode : a.id = node.id := by simpa using ha
      have hna : node = a := by
        rcases List.mem_cons.mp hmem with h | h
        · exact h
        · exact absurd (hanode ▸ List.mem_map_of_mem NoteNode.id h) hnd'.1
      have hfilter : rest.filter (fun n => !(n.id == node.id)) = rest := by
        apply List.filter_eq_self.mpr
        intro n hn
        have : n.id ≠ node.id := fun hcontra =>
          hnd'.1 (hanode ▸ hcontra ▸ List.mem_map_of_mem NoteNode.id hn)
        simp [this]
      refine ⟨by simp [hna], ?_⟩
      rw [List.filter_cons]
      simp only [ha, Bool.not_true, List.eraseIdx]
      simpa using hfilter.symm
    · rw [if_neg ha] at hfind
      have hfind' : Option.map (· + 1) (rest.findIdx? (fun n => n.id == node.id))
          = some i := by
        simpa [List.findIdx?_succ] using hfind
      obtain ⟨j, hj, rfl⟩ : ∃ j, rest.findIdx? (fun n => n.id == node.id) = some j
          ∧ j + 1 = i := by
        cases hrest : rest.findIdx? (fun n => n.id == node.id) with
        | none => rw [hrest] at hfind'; cases hfind'
        | some j => rw [hrest] at hfind'; exact ⟨j, rfl, by cases hfind'; rfl⟩
      have hmem' : node ∈ rest := by
        rcases List.mem_cons.mp hmem with h | h
        · exact absurd (by simp [h]) ha
        · exact h
      obtain ⟨hget, herase⟩ := ih j hmem' hnd'.2 hj
      refine ⟨by simpa using hget, ?_⟩
      rw [List.filter_cons]
      simp only [ha, Bool.not_false, if_pos]
      show a :: rest.eraseIdx j = a :: rest.filter (fun n => !(n.id == node.id))
      rw [herase]

/-- Claim C8. On a duplicate-free node order containing `node`: `layerUp`
moves the node to the last (topmost) position keeping every other node in
its original relative order, `layerDown` moves it to the first position
likewise; `layerUp` is a no-op when the node is already last, and
`layerDown` is a no-op when it is already first. -/
theorem layer_up_down_spec (l : List NoteNode) (node : NoteNode)
    (hmem : node ∈ l) (hnd : (l.map NoteNode.id).Nodup) :
    layerUpNodes node.id l = l.filter (fun n => !(n.id == node.id)) ++ [node] ∧
    layerDownNodes node.id l = node :: l.filter (fun n => !(n.id == node.id)) ∧
    (l.getLast? = some node → layerUpNodes node.id l = l) ∧
    (l.head? = some node → layerDownNodes node.id l = l) := by
  have hsome : (l.findIdx? (fun n => n.id == node.id)).isSome := by
    rw [List.findIdx?_isSome]
    exact List.any_eq_true.mpr ⟨node, hmem, by simp⟩
  obtain ⟨i, hfind⟩ := Option.isSome_iff_exists.mp hsome
  obtain ⟨hget, herase⟩ := findIdx_erase_decomp l node i hmem hnd hfind
  have hidx : i < l.length := (List.findIdx?_eq_some_iff_findIdx_eq.mp hfind).1
  have hup : layerUpNodes node.id l =
      l.filter (fun n => !(n.id == node.id)) ++ [node] := by
    unfold layerUpNodes
    simp only [hfind]
    by_cases hlast : i = l.length - 1
    · rw [if_pos hlast]
      have hlen : i + 1 = l.length := by omega
      have hdrop : l.drop (i + 1) = [] := List.drop_eq_nil_of_le (by omega)
      have htake : l.take i ++ l.drop i = l := List.take_append_drop i l
      have hdropi : l.drop i = node :: l.drop (i + 1) := by
        have := List.drop_eq_getElem_cons hidx
        have hnode : l[i] = node := by
          have := List.getElem?_eq_some.mp (by rw [← List.get?_eq_getElem?]; exact hget)
          exact this.2
        rw [hnode] at this
        exact this
      have hl : l = l.take i ++ [node] := by
        conv_lhs => rw [← htake]
        rw [hdropi, hdrop]
      have : l.eraseIdx i = l.take i := by
        rw [List.eraseIdx_eq_take_drop_succ, hdrop, List.append_nil]
      calc l = l.take i ++ [node] := hl
        _ = l.eraseIdx i ++ [node] := by rw [this]
        _ = l.filter (fun n => !(n.id == node.id)) ++ [node] := by rw [herase]
    · rw [if_neg hlast]
      simp only [hget, herase]
  have hdown : layerDownNodes node.id l =
      node :: l.filter (fun n => !(n.id == node.id)) := by
    unfold layerDownNodes
    simp only [hfind]
    by_cases hfirst : i = 0
    · rw [if_pos hfirst]
      subst hfirst
      have hl : ∃ t, l = node :: t := by
        cases l with
        | nil => cases hget
        | cons a t => exact ⟨t, by cases hget; rfl⟩
      obtain ⟨t, rfl⟩ := hl
      have : t.filter (fun n => !(n.id == node.id)) = t := by
        have hnd' : node.id ∉ t.map NoteNode.id := by
          rw [List.map_cons] at hnd
          exact (List.nodup_cons.mp hnd).1
        apply List.filter_eq_self.mpr
        intro n hn
        have : n.id ≠ node.id := fun hcontra =>
          hnd' (hcontra ▸ List.mem_map_of_mem NoteNode.id hn)
        simp [this]
      rw [List.filter_cons]
      simp [this]
    · rw [if_neg hfirst]
      simp only [hget, herase]
  refine ⟨hup, hdown, fun hlast => ?_, fun hhead => ?_⟩
  · obtain ⟨ys, rfl⟩ := List.getLast?_eq_some_iff.mp hlast
    rw [hup]
    have hnotin : ∀ a ∈ ys, a.id ≠ node.id := by
      intro a hain hcontra
      have := (List.nodup_append.mp (by simpa using hnd)).2.2
      exact this (hcontra ▸ List.mem_map_of_mem NoteNode.id hain) (by simp)
    have : ys.filter (fun n => !(n.id == node.id)) = ys :=
      List.filter_eq_self.mpr (fun a ha => by simp [hnotin a ha])
    rw [List.filter_append, this, List.filter_cons]
    simp
  · obtain ⟨ys, rfl⟩ := List.head?_eq_some_iff.mp hhead
    rw [hdown]
    have hnd' : node.id ∉ ys.map NoteNode.id := by
      rw [List.map_cons] at hnd
      exact (List.nodup_cons.mp hnd).1
    have : ys.filter (fun n => !(n.id == node.id)) = ys := by
      apply List.filter_eq_self.mpr
      intro n hn
      have : n.id ≠ node.id := fun hcontra =>
        hnd' (hcontra ▸ List.mem_map_of_mem NoteNode.id hn)
      simp [this]
    rw [List.filter_cons]
    simp [this]

/-- Witness for C8: scenario 3 of the spec — from order `[A, B]`,
`layerDown(B)` gives `[B, A]`, and `layerUp(B)` on that gives back `[A, B]`. -/
theorem layer_up_down_spec_witness :
    layerDownNodes nodeB.id [nodeA, nodeB] = [nodeB, nodeA] ∧
    layerUpNodes nodeB.id [nodeB, nodeA] = [nodeA, nodeB] := by
  have h1 := (layer_up_down_spec [nodeA, nodeB] nodeB (by simp)
    (by simp [nodeA, nodeB])).2.1
  have h2 := (layer_up_down_spec [nodeB, nodeA] nodeB (by simp)
    (by simp [nodeA, nodeB])).1
  rw [h1, h2]
  simp [nodeA, nodeB, List.filter]

/-! ## Claim C9 — removal safety -/

/-- Claim C9. With the context menu open on a node, the `remove` action
removes that id from the node order, drops any captured drag origin,
clears a selection referencing it, un-positions the backing note, and
appends exactly one clear-position store call; a drag end arriving after
the removal only re-arms canvas panning — it changes nothing else and
persists nothing. -/
theorem remove_clears_session (s : EngineState) (menu : ContextMenuSt)
    (hmenu : s.contextMenu = some menu) :
    (∀ n ∈ (handleCanvasMenuAction .remove s).noteNodes, n.id ≠ menu.node.id) ∧
    dsLookup (handleCanvasMenuAction .remove s).dragStart menu.node.id = none ∧
    (handleCanvasMenuAction .remove s).selectedNode ≠ some menu.node.id ∧
    (handleCanvasMenuAction .remove s).calls =
      s.calls ++ [StoreCall.clearPosition menu.node.id] ∧
    (∀ nt ∈ (handleCanvasMenuAction .remove s).notes,
        nt.id = menu.node.id → nt.position = none) ∧
    (∀ tX tY : ℚ,
        notePanGestureOnEnd menu.node.id tX tY (handleCanvasMenuAction .remove s) =
          { handleCanvasMenuAction .remove s with canvasPanEnabled := true }) ∧
    (∀ tX tY : ℚ,
        (notePanGestureOnEnd menu.node.id tX tY
            (handleCanvasMenuAction .remove s)).calls =
          (handleCanvasMenuAction .remove s).calls) := by
  have hred : handleCanvasMenuAction .remove s =
      { s with
        contextMenu := none,
        canvasPanEnabled := true,
        noteNodes := s.noteNodes.filter (fun n => !(n.id == menu.node.id)),
        notes := s.notes.map (fun nt =>
          if nt.id == menu.node.id then { nt with position := none } else nt),
        selectedNode :=
          if s.selectedNode = some menu.node.id then none else s.selectedNode,
        dragStart := dsErase s.dragStart menu.node.id,
        calls := s.calls ++ [StoreCall.clearPosition menu.node.id] } := by
    unfold handleCanvasMenuAction closeContextMenu
    simp only [hmenu]
  have hlook : dsLookup (handleCanvasMenuAction .remove s).dragStart
      menu.node.id = none := by
    rw [hred]
    exact dsLookup_dsErase _ _
  have hlate : ∀ tX tY : ℚ,
      notePanGestureOnEnd menu.node.id tX tY (handleCanvasMenuAction .remove s) =
        { handleCanvasMenuAction .remove s with canvasPanEnabled := true } := by
    intro tX tY
    unfold notePanGestureOnEnd handleNodeDragEndJS
    have : dsLookup ({ handleCanvasMenuAction .remove s with
        canvasPanEnabled := true } : EngineState).dragStart menu.node.id = none :=
      hlook
    simp only [this]
  refine ⟨fun n hn => ?_, hlook, ?_, by rw [hred], fun nt hnt hid => ?_, hlate,
          fun tX tY => ?_⟩
  · rw [hred] at hn
    have := (List.mem_filter.mp hn).2
    simpa using this
  · rw [hred]
    split_ifs with h
    · simp
    · simpa using h
  · rw [hred] at hnt
    simp only [List.mem_map] at hnt
    obtain ⟨m, _, hm⟩ := hnt
    by_cases hb : m.id = menu.node.id
    · rw [if_pos (by simpa using hb)] at hm
      subst hm
      rfl
    · rw [if_neg (by simpa using hb)] at hm
      subst hm
      exact absurd hid hb
  · rw [hlate tX tY]

/-- Witness for C9: in `menuDemoState` (menu open on `A`, drag origin
captured for `A`, `A` selected), removing issues exactly the clear call,
empties the drag origin, and deselects `A`. -/
theorem remove_clears_session_witness :
    dsLookup (handleCanvasMenuAction .remove menuDemoState).dragStart "A" = none ∧
    (handleCanvasMenuAction .remove menuDemoState).calls =
      menuDemoState.calls ++ [StoreCall.clearPosition "A"] ∧
    (handleCanvasMenuAction .remove menuDemoState).selectedNode ≠ some "A" := by
  have h := remove_clears_session menuDemoState
    { node := nodeA, posX := 120, posY := 130 } rfl
  exact ⟨h.2.1, h.2.2.2.1, h.2.2.1⟩

/-! ## Claim C10 — pin flag is session-transient -/

/-- Claim C10. With the context menu open on a node, the `pin` action leaves
the viewport transform, the store-call trace, and every node's id, position
and size unchanged (so the order is unchanged too), toggling exactly the
target node's `isPinned` flag; and every node built by `loadNotes` starts
with `isPinned = false`, so no pin survives a reload. -/
theorem pin_toggle_transient (s : EngineState) (menu : ContextMenuSt)
    (hmenu : s.contextMenu = some menu) :
    (handleCanvasMenuAction .pin s).translateX = s.translateX ∧
    (handleCanvasMenuAction .pin s).translateY = s.translateY ∧
    (handleCanvasMenuAction .pin s).scale = s.scale ∧
    (handleCanvasMenuAction .pin s).calls = s.calls ∧
    (handleCanvasMenuAction .pin s).noteNodes.map
        (fun n => (n.id, n.x, n.y, n.width, n.height)) =
      s.noteNodes.map (fun n => (n.id, n.x, n.y, n.width, n.height)) ∧
    List.Forall₂ (fun n n' : NoteNode =>
        n'.isPinned = (if n.id = menu.node.id then !n.isPinned else n.isPinned))
      s.noteNodes (handleCanvasMenuAction .pin s).noteNodes ∧
    (∀ (ns : List Note) (n : NoteNode), n ∈ loadNotesNodes ns →
        n.isPinned = false) := by
  have hred : handleCanvasMenuAction .pin s =
      { s with
        contextMenu := none,
        canvasPanEnabled := true,
        noteNodes := s.noteNodes.map (fun n =>
          if n.id == menu.node.id then { n with isPinned := !n.isPinned } else n) } := by
    unfold handleCanvasMenuAction closeContextMenu
    simp only [hmenu]
  refine ⟨by rw [hred], by rw [hred], by rw [hred], by rw [hred], ?_, ?_, ?_⟩
  · rw [hred]
    show List.map _ (s.noteNodes.map _) = _
    rw [List.map_map]
    apply List.map_congr_left
    intro n _
    by_cases hb : n.id = menu.node.id
    · simp [Function.comp, hb]
    · simp [Function.comp, hb]
  · rw [hred]
    show List.Forall₂ _ s.noteNodes (s.noteNodes.map _)
    rw [List.forall₂_map_right_iff, List.forall₂_same]
    intro n _
    by_cases hb : n.id = menu.node.id
    · simp [hb]
    · simp [hb]
  · intro ns n hn
    unfold loadNotesNodes at hn
    obtain ⟨nt, _, heq⟩ := List.mem_filterMap.mp hn
    obtain ⟨p, _, hbuild⟩ := Option.map_eq_some'.mp heq
    rw [← hbuild]

/-- Witness for C10: toggling pin on `A` in `menuDemoState` issues no store
call and keeps the viewport scale, and the node built from a freshly loaded
positioned note is unpinned. -/
theorem pin_toggle_transient_witness :
    (handleCanvasMenuAction .pin menuDemoState).calls = menuDemoState.calls ∧
    (handleCanvasMenuAction .pin menuDemoState).scale = menuDemoState.scale := by
  have h := pin_toggle_transient menuDemoState
    { node := nodeA, posX := 120, posY := 130 } rfl
  exact ⟨h.2.2.2.1, h.2.2.1⟩

/-! ## Claims C5 / C6 — fit-to-content -/

theorem zoomBounds_foldl (l : List NoteNode) (a b c d : ℚ) :
    l.foldl ((fun acc node =>
      { minX := jsMinQ acc.minX node.x,
        maxX := jsMaxQ acc.maxX (node.x + node.width),
        minY := jsMinQ acc.minY node.y,
        maxY := jsMaxQ acc.maxY (node.y + node.height) }) :
        FitBounds → NoteNode → FitBounds)
      { minX := .num a, maxX := .num b, minY := .num c, maxY := .num d } =
    { minX := .num ((l.foldl (fun acc n =>
        (min acc.1 n.x, max acc.2.1 (n.x + n.width),
         min acc.2.2.1 n.y, max acc.2.2.2 (n.y + n.height))) (a, b, c, d)).1),
      maxX := .num ((l.foldl (fun acc n =>
        (min acc.1 n.x, max acc.2.1 (n.x + n.width),
         min acc.2.2.1 n.y, max acc.2.2.2 (n.y + n.height))) (a, b, c, d)).2.1),
      minY := .num ((l.foldl (fun acc n =>
        (min acc.1 n.x, max acc.2.1 (n.x + n.width),
         min acc.2.2.1 n.y, max acc.2.2.2 (n.y + n.height))) (a, b, c, d)).2.2.1),
      maxY := .num ((l.foldl (fun acc n =>
        (min acc.1 n.x, max acc.2.1 (n.x + n.width),
         min acc.2.2.1 n.y, max acc.2.2.2 (n.y + n.height))) (a, b, c, d)).2.2.2) } := by
  induction l generalizing a b c d with
  | nil => rfl
  | cons n t ih =>
    simp only [List.foldl_cons]
    exact ih _ _ _ _

/-- The bounding-box fold of `zoomToFitAll` on a nonempty node list is the
finite rational bounding box `qBounds`. -/
theorem zoomBounds_cons (first : NoteNode) (rest : List NoteNode) :
    zoomBounds (first :: rest) =
      { minX := .num (qBounds first rest).1,
        maxX := .num (qBounds first rest).2.1,
        minY := .num (qBounds first rest).2.2.1,
        maxY := .num (qBounds first rest).2.2.2 } := by
  unfold zoomBounds qBounds
  simp only [List.foldl_cons]
  exact zoomBounds_foldl rest first.x (first.x + first.width) first.y
    (first.y + first.height)

/-- Source `zoomToFitAll` on a nonempty list with a positive-extent bounding box:
the sprung-to transform in closed rational form. -/
theorem zoomToFitAll_pos_box (screenW screenH : ℚ) (first : NoteNode)
    (rest : List NoteNode)
    (hW : 0 < (qBounds first rest).2.1 - (qBounds first rest).1)
    (hH : 0 < (qBounds first rest).2.2.2 - (qBounds first rest).2.2.1) :
    zoomToFitAll screenW screenH (first :: rest) =
      some { scale := .num (min (min
                ((screenW - 100 * 2) / ((qBounds first rest).2.1 - (qBounds first rest).1))
                ((screenH - 100 * 2) / ((qBounds first rest).2.2.2 - (qBounds first rest).2.2.1))) 1),
             translateX := .num
               (-(((qBounds first rest).1 + (qBounds first rest).2.1) / 2) *
                  (min (min
                    ((screenW - 100 * 2) / ((qBounds first rest).2.1 - (qBounds first rest).1))
                    ((screenH - 100 * 2) / ((qBounds first rest).2.2.2 - (qBounds first rest).2.2.1))) 1) +
                screenW / 2),
             translateY := .num
               (-(((qBounds first rest).2.2.1 + (qBounds first rest).2.2.2) / 2) *
                  (min (min
                    ((screenW - 100 * 2) / ((qBounds first rest).2.1 - (qBounds first rest).1))
                    ((screenH - 100 * 2) / ((qBounds first rest).2.2.2 - (qBounds first rest).2.2.1))) 1) +
                screenH / 2) } := by
  unfold zoomToFitAll
  rw [if_neg (by simp), zoomBounds_cons]
  simp only [jsSub, jsAdd, jsDiv, jsMin, jsNeg, jsMul, hW.ne', hH.ne',
    if_neg (two_ne_zero), if_neg hW.ne', if_neg hH.ne']
  simp

/-- Modelled from the spec: the claimed fitting scale
`min((viewportWidth - 2*padding)/boxWidth, (viewportHeight - 2*padding)/boxHeight, 1)`
with `padding = 100`. -/
def fitScaleSpec (screenW screenH boxW boxH : ℚ) : ℚ :=
  min (min ((screenW - 2 * 100) / boxW) ((screenH - 2 * 100) / boxH)) 1

/-- The bounding-box center `centerX` of `zoomToFitAll`. -/
def boxCenterX (first : NoteNode) (rest : List NoteNode) : ℚ :=
  ((qBounds first rest).1 + (qBounds first rest).2.1) / 2

/-- The bounding-box center `centerY` of `zoomToFitAll`. -/
def boxCenterY (first : NoteNode) (rest : List NoteNode) : ℚ :=
  ((qBounds first rest).2.2.1 + (qBounds first rest).2.2.2) / 2

/-- Claim C5. `zoomToFitAll` is a no-op on an empty node set; on a nonempty
set with a positive-extent bounding box it springs to exactly the claimed
scale `min((vw-2·100)/boxW, (vh-2·100)/boxH, 1)` (never above `1`) and to
the translation that maps the box center to the viewport center. -/
theorem zoomToFit_spec (screenW screenH : ℚ) (first : NoteNode)
    (rest : List NoteNode)
    (hW : 0 < (qBounds first rest).2.1 - (qBounds first rest).1)
    (hH : 0 < (qBounds first rest).2.2.2 - (qBounds first rest).2.2.1) :
    zoomToFitAll screenW screenH [] = none ∧
    zoomToFitAll screenW screenH (first :: rest) =
      some { scale := .num (fitScaleSpec screenW screenH
               ((qBounds first rest).2.1 - (qBounds first rest).1)
               ((qBounds first rest).2.2.2 - (qBounds first rest).2.2.1)),
             translateX := .num (screenW / 2 - boxCenterX first rest *
               fitScaleSpec screenW screenH
                 ((qBounds first rest).2.1 - (qBounds first rest).1)
                 ((qBounds first rest).2.2.2 - (qBounds first rest).2.2.1)),
             translateY := .num (screenH / 2 - boxCenterY first rest *
               fitScaleSpec screenW screenH
                 ((qBounds first rest).2.1 - (qBounds first rest).1)
                 ((qBounds first rest).2.2.2 - (qBounds first rest).2.2.1)) } ∧
    fitScaleSpec screenW screenH
      ((qBounds first rest).2.1 - (qBounds first rest).1)
      ((qBounds first rest).2.2.2 - (qBounds first rest).2.2.1) ≤ 1 ∧
    boxCenterX first rest *
        fitScaleSpec screenW screenH
          ((qBounds first rest).2.1 - (qBounds first rest).1)
          ((qBounds first rest).2.2.2 - (qBounds first rest).2.2.1) +
      (screenW / 2 - boxCenterX first rest *
        fitScaleSpec screenW screenH
          ((qBounds first rest).2.1 - (qBounds first rest).1)
          ((qBounds first rest).2.2.2 - (qBounds first rest).2.2.1)) =
      screenW / 2 := by
  refine ⟨rfl, ?_, min_le_right _ _, by ring⟩
  rw [zoomToFitAll_pos_box screenW screenH first rest hW hH]
  simp only [Option.some.injEq, FitTarget.mk.injEq, JsNum.num.injEq,
    fitScaleSpec, boxCenterX, boxCenterY]
  refine ⟨by norm_num, by ring_nf, by ring_nf⟩

/-- Witness for C5: scenario 4 of the spec — one node spanning
`(0,0)`–`(2000,1500)`, viewport `800 × 600`, padding `100`: the engine
springs to scale `4/15 ≈ 0.267` and translation `(400/3, 100)`, which maps
the box center `(1000, 750)` to the viewport center `(400, 300)`. -/
theorem zoomToFit_spec_witness :
    0 < (qBounds fitDemoNode []).2.1 - (qBounds fitDemoNode []).1 ∧
    zoomToFitAll 800 600 [fitDemoNode] =
      some { scale := .num (4/15), translateX := .num (400/3),
             translateY := .num 100 } := by
  have hW : 0 < (qBounds fitDemoNode []).2.1 - (qBounds fitDemoNode []).1 := by
    norm_num [qBounds, fitDemoNode]
  have hH : 0 < (qBounds fitDemoNode []).2.2.2 - (qBounds fitDemoNode []).2.2.1 := by
    norm_num [qBounds, fitDemoNode]
  have h := (zoomToFit_spec 800 600 fitDemoNode [] hW hH).2.1
  refine ⟨hW, ?_⟩
  rw [h]
  norm_num [fitScaleSpec, boxCenterX, boxCenterY, qBounds, fitDemoNode, min_def]

/-- Counterexample to C6. `zoomToFitAll` never clamps a degenerate extent:
on a (hypothetical) zero-size node with viewport `150 × 600` the JS division
by the zero box width yields `-Infinity` (and `NaN` translations), not the
`min(-50/1, 400/1, 1) = -50` that the claimed at-least-1 clamping of the box
dimensions would produce. -/
theorem zoomToFit_degenerate_cex :
    zoomToFitAll 150 600 [degenerateNode] =
      some { scale := .negInf, translateX := .nan, translateY := .nan } ∧
    JsNum.negInf ≠
      .num (min (min ((150 - 200) / max ((0:ℚ)) 1) ((600 - 200) / max ((0:ℚ)) 1)) 1) := by
  constructor
  · show zoomToFitAll 150 600 [degenerateNode] = _
    unfold zoomToFitAll
    rw [if_neg (by simp), zoomBounds_cons]
    norm_num [qBounds, degenerateNode, jsSub, jsAdd, jsDiv, jsMin, jsNeg, jsMul]
  · simp

/-- The bounding-box fold keeps an extent of at least one node size when
every node has the fixed size. -/
theorem qBounds_fold_extent (l : List NoteNode) (a b c d : ℚ)
    (h : ∀ n ∈ l, n.width = NOTE_NODE_WIDTH ∧ n.height = NOTE_NODE_HEIGHT)
    (hab : a + NOTE_NODE_WIDTH ≤ b) (hcd : c + NOTE_NODE_HEIGHT ≤ d) :
    (l.foldl (fun acc n =>
        (min acc.1 n.x, max acc.2.1 (n.x + n.width),
         min acc.2.2.1 n.y, max acc.2.2.2 (n.y + n.height))) (a, b, c, d)).1 +
        NOTE_NODE_WIDTH ≤
      (l.foldl (fun acc n =>
        (min acc.1 n.x, max acc.2.1 (n.x + n.width),
         min acc.2.2.1 n.y, max acc.2.2.2 (n.y + n.height))) (a, b, c, d)).2.1 ∧
    (l.foldl (fun acc n =>
        (min acc.1 n.x, max acc.2.1 (n.x + n.width),
         min acc.2.2.1 n.y, max acc.2.2.2 (n.y + n.height))) (a, b, c, d)).2.2.1 +
        NOTE_NODE_HEIGHT ≤
      (l.foldl (fun acc n =>
        (min acc.1 n.x, max acc.2.1 (n.x + n.width),
         min acc.2.2.1 n.y, max acc.2.2.2 (n.y + n.height))) (a, b, c, d)).2.2.2 := by
  induction l generalizing a b c d with
  | nil => exact ⟨hab, hcd⟩
  | cons n t ih =>
    simp only [List.foldl_cons]
    have hn := h n (List.mem_cons_self n t)
    have ht : ∀ m ∈ t, m.width = NOTE_NODE_WIDTH ∧ m.height = NOTE_NODE_HEIGHT :=
      fun m hm => h m (List.mem_cons_of_mem n hm)
    refine ih _ _ _ _ ht ?_ ?_
    · rcases le_total a n.x with h' | h'
      · rw [min_eq_left h']
        exact le_trans hab (le_max_left _ _)
      · rw [min_eq_right h', hn.1]
        exact le_max_right _ _
    · rcases le_total c n.y with h' | h'
      · rw [min_eq_left h']
        exact le_trans hcd (le_max_left _ _)
      · rw [min_eq_right h', hn.2]
        exact le_max_right _ _

/-- Amended C6. `zoomToFitAll` performs no minimum-extent clamping
(see the counterexample); instead, a degenerate bounding box can never
arise in the program: every node it builds has the fixed size
`200 × 150`, so any nonempty node set has box extent at least `200 × 150`,
the divisors are nonzero, and the computed fitting scale is a finite
rational. -/
theorem fit_box_never_degenerate (screenW screenH : ℚ) (first : NoteNode)
    (rest : List NoteNode)
    (hsize : ∀ n ∈ first :: rest,
      n.width = NOTE_NODE_WIDTH ∧ n.height = NOTE_NODE_HEIGHT) :
    NOTE_NODE_WIDTH ≤ (qBounds first rest).2.1 - (qBounds first rest).1 ∧
    NOTE_NODE_HEIGHT ≤ (qBounds first rest).2.2.2 - (qBounds first rest).2.2.1 ∧
    (∃ q : ℚ, (zoomToFitAll screenW screenH (first :: rest)).map
      FitTarget.scale = some (.num q)) := by
  have hfirst := hsize first (List.mem_cons_self first rest)
  have hrest : ∀ n ∈ rest, n.width = NOTE_NODE_WIDTH ∧ n.height = NOTE_NODE_HEIGHT :=
    fun n hn => hsize n (List.mem_cons_of_mem first hn)
  have hext := qBounds_fold_extent rest first.x (first.x + first.width)
    first.y (first.y + first.height) hrest
    (by rw [hfirst.1]) (by rw [hfirst.2])
  have hWext : (qBounds first rest).1 + NOTE_NODE_WIDTH ≤ (qBounds first rest).2.1 :=
    hext.1
  have hHext : (qBounds first rest).2.2.1 + NOTE_NODE_HEIGHT ≤
      (qBounds first rest).2.2.2 := hext.2
  have hWpos : 0 < (qBounds first rest).2.1 - (qBounds first rest).1 := by
    have : (0:ℚ) < NOTE_NODE_WIDTH := by norm_num [NOTE_NODE_WIDTH]
    linarith
  have hHpos : 0 < (qBounds first rest).2.2.2 - (qBounds first rest).2.2.1 := by
    have : (0:ℚ) < NOTE_NODE_HEIGHT := by norm_num [NOTE_NODE_HEIGHT]
    linarith
  refine ⟨by linarith, by linarith, ?_⟩
  rw [zoomToFitAll_pos_box screenW screenH first rest hWpos hHpos]
  exact ⟨_, rfl⟩

/-- Witness for C6 amended: the two standard-size nodes `A`, `B` give box
extents `≥ 200` and `≥ 150` and a finite fitting scale. -/
theorem fit_box_never_degenerate_witness :
    NOTE_NODE_WIDTH ≤ (qBounds nodeA [nodeB]).2.1 - (qBounds nodeA [nodeB]).1 ∧
    (∃ q : ℚ, (zoomToFitAll 800 600 [nodeA, nodeB]).map
      FitTarget.scale = some (.num q)) := by
  have h := fit_box_never_degenerate 800 600 nodeA [nodeB]
    (by intro n hn
        rcases List.mem_cons.mp hn with rfl | hn'
        · exact ⟨rfl, rfl⟩
        · rcases List.mem_cons.mp hn' with rfl | h'
          · exact ⟨rfl, rfl⟩
          · cases h')
  exact ⟨h.1, h.2.2⟩

end Constella
